import Mathlib

/-!
Verification of the record/task lifecycle core of QCFractal.

Python strings are modelled as lists of Unicode code points, with the string
lowercasing of the source restricted to its ascii fragment (the program, method,
basis and tag fields the specification discusses are ascii).  Python floats and
numpy arrays are modelled as exact rationals, with Python round and numpy around
modelled as round half to even on rationals.  Python dicts are modelled as
insertion-ordered association lists; assignment to an existing key replaces the
value in place, as in Python.
-/

/-- PyStr is the model of a Python string: its list of code points. -/
abbrev PyStr := List Nat

/-- lowerCp models the effect of Python str.lower on one ascii code point. -/
def lowerCp (c : Nat) : Nat := if 65 ≤ c ∧ c ≤ 90 then c + 32 else c

/-- lowerStr models Python str.lower (ascii fragment). -/
def lowerStr (s : PyStr) : PyStr := s.map lowerCp

/-- strLE is the lexicographic comparison of code point lists, the order in which
json.dumps with sort_keys emits keys. -/
def strLE : PyStr → PyStr → Bool
  | [], _ => true
  | _ :: _, [] => false
  | a :: as, b :: bs => if a < b then true else if a = b then strLE as bs else false

mutual
/-- PyValue models the Python values accepted by recursive_normalizer in
qcportal/qcportal/utils.py: None, int, str, float, list, tuple, dict and numpy
arrays of floats. -/
inductive PyValue where
  | none : PyValue
  | int (n : Int) : PyValue
  | str (s : PyStr) : PyValue
  | float (q : ℚ) : PyValue
  | list (xs : PyList) : PyValue
  | tuple (xs : PyList) : PyValue
  | dict (es : PyDict) : PyValue
  | ndarray (qs : List ℚ) : PyValue
  deriving DecidableEq
/-- PyList models a Python list or tuple of PyValues. -/
inductive PyList where
  | nil : PyList
  | cons (hd : PyValue) (tl : PyList) : PyList
  deriving DecidableEq
/-- PyDict models a Python dict as its insertion-ordered entry list. -/
inductive PyDict where
  | nil : PyDict
  | cons (k : PyStr) (v : PyValue) (tl : PyDict) : PyDict
  deriving DecidableEq
end

/-- dictKeys lists the keys of a modelled dict in insertion order. -/
def dictKeys : PyDict → List PyStr
  | PyDict.nil => []
  | PyDict.cons k _ tl => k :: dictKeys tl

/-- dictInsert models Python dict assignment: an existing key keeps its position
and gets the new value, a fresh key is appended at the end. -/
def dictInsert (k : PyStr) (v : PyValue) : PyDict → PyDict
  | PyDict.nil => PyDict.cons k v PyDict.nil
  | PyDict.cons k2 v2 tl =>
      if k2 = k then PyDict.cons k2 v tl else PyDict.cons k2 v2 (dictInsert k v tl)

/-- dictApp appends two modelled dicts entrywise. -/
def dictApp : PyDict → PyDict → PyDict
  | PyDict.nil, d => d
  | PyDict.cons k v tl, d => PyDict.cons k v (dictApp tl d)

/-- rhe is round half to even on rationals, the rounding used by Python round
and numpy around. -/
def rhe (x : ℚ) : ℤ :=
  let f := ⌊x⌋
  let r := x - f
  if r < 1 / 2 then f
  else if 1 / 2 < r then f + 1
  else if f % 2 = 0 then f else f + 1

/-- roundTo models Python round(x, digits): rounding to the given number of
decimal digits, half to even. -/
def roundTo (digits : Nat) (q : ℚ) : ℚ := (rhe (q * 10 ^ digits) : ℚ) / 10 ^ digits

/-- flipSmall models one entry of the ndarray branch of recursive_normalizer:
the entry is rounded and entries of magnitude below 5 to the power -(digits+1)
are flipped to zero. -/
def flipSmall (digits : Nat) (q : ℚ) : ℚ :=
  let r := roundTo digits q
  if |r| < ((5 : ℚ) ^ (digits + 1))⁻¹ then 0 else r

mutual
/-- recursive_normalizer is embedded from qcportal/qcportal/utils.py lines 58 to 102.
Ints and None pass through, strings are lowercased when the lowercase flag is set,
lists and tuples recurse, dicts are rebuilt entry by entry with keys lowercased when
the flag is set, numpy arrays are rounded with small entries flipped to zero when
digits is nonzero, and floats are rounded when digits is nonzero with a rounded
value equal to plus or minus 0.0 replaced by the int 0. -/
def recursive_normalizer (digits : Nat) (lowercase : Bool) : PyValue → PyValue
  | PyValue.none => PyValue.none
  | PyValue.int n => PyValue.int n
  | PyValue.str s => if lowercase then PyValue.str (lowerStr s) else PyValue.str s
  | PyValue.list xs => PyValue.list (normList digits lowercase xs)
  | PyValue.tuple xs => PyValue.tuple (normList digits lowercase xs)
  | PyValue.dict es => PyValue.dict (normDictGo digits lowercase PyDict.nil es)
  | PyValue.ndarray qs =>
      if digits ≠ 0 then PyValue.ndarray (qs.map (flipSmall digits)) else PyValue.ndarray qs
  | PyValue.float q =>
      if digits ≠ 0 then
        (if roundTo digits q = 0 then PyValue.int 0 else PyValue.float (roundTo digits q))
      else PyValue.float q
/-- normList is the list and tuple recursion of recursive_normalizer. -/
def normList (digits : Nat) (lowercase : Bool) : PyList → PyList
  | PyList.nil => PyList.nil
  | PyList.cons x tl => PyList.cons (recursive_normalizer digits lowercase x) (normList digits lowercase tl)
/-- normDictGo is the dict loop of recursive_normalizer: the result dict is built
up from empty by assigning each (possibly lowercased) key its normalized value. -/
def normDictGo (digits : Nat) (lowercase : Bool) (acc : PyDict) : PyDict → PyDict
  | PyDict.nil => acc
  | PyDict.cons k v tl =>
      normDictGo digits lowercase
        (dictInsert (if lowercase then lowerStr k else k) (recursive_normalizer digits lowercase v) acc) tl
end

/-- roundedFix states that a float is a fixed point of the float branch of
recursive_normalizer: when digits is nonzero it is already rounded and nonzero. -/
def roundedFix (digits : Nat) (q : ℚ) : Prop :=
  digits ≠ 0 → (roundTo digits q = q ∧ q ≠ 0)

/-- arrEntryFix states that a numpy array entry is a fixed point of the ndarray
branch of recursive_normalizer. -/
def arrEntryFix (digits : Nat) (q : ℚ) : Prop :=
  digits ≠ 0 → (roundTo digits q = q ∧ (|q| < ((5 : ℚ) ^ (digits + 1))⁻¹ → q = 0))

mutual
/-- NormV characterizes the fixed points of recursive_normalizer. -/
def NormV (digits : Nat) (lc : Bool) : PyValue → Prop
  | PyValue.none => True
  | PyValue.int _ => True
  | PyValue.str s => lc = true → lowerStr s = s
  | PyValue.float q => roundedFix digits q
  | PyValue.list xs => NormL digits lc xs
  | PyValue.tuple xs => NormL digits lc xs
  | PyValue.dict es => NormD digits lc es ∧ (dictKeys es).Nodup
  | PyValue.ndarray qs => ∀ q ∈ qs, arrEntryFix digits q
/-- NormL lifts NormV to modelled lists. -/
def NormL (digits : Nat) (lc : Bool) : PyList → Prop
  | PyList.nil => True
  | PyList.cons x tl => NormV digits lc x ∧ NormL digits lc tl
/-- NormD states that every key of a modelled dict is already lowercased (when the
flag is set) and every value is a fixed point of recursive_normalizer. -/
def NormD (digits : Nat) (lc : Bool) : PyDict → Prop
  | PyDict.nil => True
  | PyDict.cons k v tl => (lc = true → lowerStr k = k) ∧ NormV digits lc v ∧ NormD digits lc tl
end

/-- dentInsert inserts one entry into an entry list kept sorted by key. -/
def dentInsert (k : PyStr) (v : PyValue) : PyDict → PyDict
  | PyDict.nil => PyDict.cons k v PyDict.nil
  | PyDict.cons k2 v2 tl =>
      if strLE k k2 then PyDict.cons k v (PyDict.cons k2 v2 tl)
      else PyDict.cons k2 v2 (dentInsert k v tl)

/-- dsortD is insertion sort of a dict entry list by key. -/
def dsortD : PyDict → PyDict
  | PyDict.nil => PyDict.nil
  | PyDict.cons k v tl => dentInsert k v (dsortD tl)

mutual
/-- sort_keys_deep models the key ordering effect of hash_dict in
qcportal/qcportal/utils.py lines 149 to 151: json.dumps with sort_keys
serializes every dict, however deeply nested, with its keys sorted. -/
def sort_keys_deep : PyValue → PyValue
  | PyValue.none => PyValue.none
  | PyValue.int n => PyValue.int n
  | PyValue.str s => PyValue.str s
  | PyValue.float q => PyValue.float q
  | PyValue.list xs => PyValue.list (sortKeysL xs)
  | PyValue.tuple xs => PyValue.tuple (sortKeysL xs)
  | PyValue.dict es => PyValue.dict (dsortD (sortKeysD es))
  | PyValue.ndarray qs => PyValue.ndarray qs
/-- sortKeysL maps sort_keys_deep over a modelled list. -/
def sortKeysL : PyList → PyList
  | PyList.nil => PyList.nil
  | PyList.cons x tl => PyList.cons (sort_keys_deep x) (sortKeysL tl)
/-- sortKeysD maps sort_keys_deep over the values of a dict entry list. -/
def sortKeysD : PyDict → PyDict
  | PyDict.nil => PyDict.nil
  | PyDict.cons k v tl => PyDict.cons k (sort_keys_deep v) (sortKeysD tl)
end

/-- keyLB checks that a key is below the first key of an entry list. -/
def keyLB (k : PyStr) : PyDict → Bool
  | PyDict.nil => true
  | PyDict.cons k2 _ _ => strLE k k2

/-- keysChainB checks that the keys of an entry list are in sorted order. -/
def keysChainB : PyDict → Bool
  | PyDict.nil => true
  | PyDict.cons k _ tl => keyLB k tl && keysChainB tl

mutual
/-- keysSortedDeepV checks that every dict nested anywhere in a value has its
keys in sorted order. -/
def keysSortedDeepV : PyValue → Bool
  | PyValue.none => true
  | PyValue.int _ => true
  | PyValue.str _ => true
  | PyValue.float _ => true
  | PyValue.list xs => keysSortedDeepL xs
  | PyValue.tuple xs => keysSortedDeepL xs
  | PyValue.dict es => keysChainB es && keysSortedDeepD es
  | PyValue.ndarray _ => true
/-- keysSortedDeepL lifts keysSortedDeepV to modelled lists. -/
def keysSortedDeepL : PyList → Bool
  | PyList.nil => true
  | PyList.cons x tl => keysSortedDeepV x && keysSortedDeepL tl
/-- keysSortedDeepD lifts keysSortedDeepV to the values of an entry list. -/
def keysSortedDeepD : PyDict → Bool
  | PyDict.nil => true
  | PyDict.cons _ v tl => keysSortedDeepV v && keysSortedDeepD tl
end

/-- keysNodupB checks that the keys of an entry list are pairwise distinct. -/
def keysNodupB (d : PyDict) : Bool := decide ((dictKeys d).Nodup)

mutual
/-- wfV checks that a value is a faithful image of a Python value: every dict
nested in it has pairwise distinct keys. -/
def wfV : PyValue → Bool
  | PyValue.none => true
  | PyValue.int _ => true
  | PyValue.str _ => true
  | PyValue.float _ => true
  | PyValue.list xs => wfL xs
  | PyValue.tuple xs => wfL xs
  | PyValue.dict es => keysNodupB es && wfD es
  | PyValue.ndarray _ => true
/-- wfL lifts wfV to modelled lists. -/
def wfL : PyList → Bool
  | PyList.nil => true
  | PyList.cons x tl => wfV x && wfL tl
/-- wfD lifts wfV to the values of an entry list. -/
def wfD : PyDict → Bool
  | PyDict.nil => true
  | PyDict.cons _ v tl => wfV v && wfD tl
end

mutual
/-- allFloatsRoundedB checks that every float leaf and every array entry nested
in a value is a fixed point of rounding to the given digit count. -/
def allFloatsRoundedB (digits : Nat) : PyValue → Bool
  | PyValue.none => true
  | PyValue.int _ => true
  | PyValue.str _ => true
  | PyValue.float q => decide (roundTo digits q = q)
  | PyValue.list xs => allFloatsRoundedL digits xs
  | PyValue.tuple xs => allFloatsRoundedL digits xs
  | PyValue.dict es => allFloatsRoundedD digits es
  | PyValue.ndarray qs => qs.all (fun q => decide (roundTo digits q = q))
/-- allFloatsRoundedL lifts allFloatsRoundedB to modelled lists. -/
def allFloatsRoundedL (digits : Nat) : PyList → Bool
  | PyList.nil => true
  | PyList.cons x tl => allFloatsRoundedB digits x && allFloatsRoundedL digits tl
/-- allFloatsRoundedD lifts allFloatsRoundedB to the values of an entry list. -/
def allFloatsRoundedD (digits : Nat) : PyDict → Bool
  | PyDict.nil => true
  | PyDict.cons _ v tl => allFloatsRoundedB digits v && allFloatsRoundedD digits tl
end

mutual
/-- strLeavesV collects the multiset of string leaves appearing in value
position anywhere in a value. -/
def strLeavesV : PyValue → Multiset PyStr
  | PyValue.none => 0
  | PyValue.int _ => 0
  | PyValue.str s => {s}
  | PyValue.float _ => 0
  | PyValue.list xs => strLeavesL xs
  | PyValue.tuple xs => strLeavesL xs
  | PyValue.dict es => strLeavesD es
  | PyValue.ndarray _ => 0
/-- strLeavesL lifts strLeavesV to modelled lists. -/
def strLeavesL : PyList → Multiset PyStr
  | PyList.nil => 0
  | PyList.cons x tl => strLeavesV x + strLeavesL tl
/-- strLeavesD collects the string leaves of the values of an entry list. -/
def strLeavesD : PyDict → Multiset PyStr
  | PyDict.nil => 0
  | PyDict.cons _ v tl => strLeavesV v + strLeavesD tl
end

/-- normDmap is the entrywise action of recursive_normalizer on a dict entry
list; when no two processed keys collide the dict loop normDictGo agrees with it. -/
def normDmap (digits : Nat) (lc : Bool) : PyDict → PyDict
  | PyDict.nil => PyDict.nil
  | PyDict.cons k v tl =>
      PyDict.cons (if lc then lowerStr k else k) (recursive_normalizer digits lc v) (normDmap digits lc tl)

/-- RecordStatusEnum is embedded from qcportal/qcportal/record_models.py lines 56 to 90:
the finite set of record states. -/
inductive RecordStatusEnum where
  | complete : RecordStatusEnum
  | invalid : RecordStatusEnum
  | running : RecordStatusEnum
  | error : RecordStatusEnum
  | waiting : RecordStatusEnum
  | cancelled : RecordStatusEnum
  | deleted : RecordStatusEnum
  deriving DecidableEq, Fintype

/-- PriorityEnum is embedded from qcportal/qcportal/record_models.py lines 26 to 33. -/
inductive PriorityEnum where
  | high : PriorityEnum
  | normal : PriorityEnum
  | low : PriorityEnum
  deriving DecidableEq

/-- priorityValue gives the integer value of each priority fixed by the source:
high is 2, normal is 1 and low is 0; higher priority is pulled first. -/
def priorityValue : PriorityEnum → Nat
  | PriorityEnum.high => 2
  | PriorityEnum.normal => 1
  | PriorityEnum.low => 0

/-- calculate_limit is embedded from qcportal/qcportal/utils.py lines 136 to 146:
the allowed limit is the maximum when none is given, otherwise the minimum of the
given and maximum limits. -/
def calculate_limit (max_limit : Nat) (given_limit : Option Nat) : Nat :=
  match given_limit with
  | Option.none => max_limit
  | Option.some g => min g max_limit

/-- QCSpec is the part of a computation specification the canonicalizer acts on:
program and method names, an optional basis, and a free-form keyword dict. -/
structure QCSpec where
  program : PyStr
  method : PyStr
  basis : Option PyStr
  keywords : PyValue
  deriving DecidableEq

/-- Modelled from the spec: the basis validator of the specification models (the
model source is not under src; its behavior is fixed in src by
test_singlepoint_models_basis_convert and test_singlepoint_models_lowercase): an
empty string basis and a null basis both become the canonical null, and a nonempty
basis is lowercased. -/
def normalize_basis : Option PyStr → Option PyStr
  | Option.none => Option.none
  | Option.some b => if b = [] then Option.none else Option.some (lowerStr b)

/-- Modelled from the spec: the Specification Canonicalizer pipeline of section 4.1
(the composing socket code is not under src). Program and method names are
lowercased by the specification model validators, the basis is normalized by
normalize_basis, and the keyword dict is prepared for hashing by
recursive_normalizer (embedded from src) with the lowercase flag off, since the
spec keeps the case of free-text keyword values, and then serialized with
recursively sorted keys as hash_dict does. -/
def canonicalize (digits : Nat) (s : QCSpec) : QCSpec :=
  { program := lowerStr s.program
    method := lowerStr s.method
    basis := normalize_basis s.basis
    keywords := sort_keys_deep (recursive_normalizer digits false s.keywords) }

/-- SpecStore is the deduplicating store of canonical specifications: stored
entries carry the record id they resolved to.  The sha256 of hash_dict is
idealized as collision-free, so the store is keyed by the canonical form itself. -/
structure SpecStore where
  entries : List (Nat × QCSpec)
  nextId : Nat
  deriving DecidableEq

/-- SubmitResult packages the outcome of one submission. -/
structure SubmitResult where
  recordId : Nat
  created : Bool
  store : SpecStore
  deriving DecidableEq

/-- Modelled from the spec: submit and find_or_create of sections 4.2 and 6 (the
record socket add code is not under src; its behavior is fixed in src by
test_torsiondrive_socket_add_same_1 and test_torsiondrive_socket_add_same_3).  The
specification is canonicalized; if a stored specification has the same canonical
form the existing record id is returned with created false, otherwise a new record
is inserted and returned with created true. -/
def submit (st : SpecStore) (digits : Nat) (s : QCSpec) : SubmitResult :=
  let c := canonicalize digits s
  match st.entries.find? (fun e => decide (e.2 = c)) with
  | Option.some e => { recordId := e.1, created := false, store := st }
  | Option.none =>
      { recordId := st.nextId, created := true,
        store := { entries := (st.nextId, c) :: st.entries, nextId := st.nextId + 1 } }

/-- TransitionError is the error taxonomy entry for an illegal state change. -/
inductive TransitionError where
  | invalidTransition : TransitionError
  deriving DecidableEq

/-- TRecord is the record-store view of a record used by the transition and sweep
operations: its id, status, tag and priority. -/
structure TRecord where
  id : Nat
  status : RecordStatusEnum
  tag : PyStr
  priority : PriorityEnum
  deriving DecidableEq

/-- Modelled from the spec: the legal edges of the record status state machine of
section 4.2 (the enforcing socket code is not under src). -/
def valid_transitions : RecordStatusEnum → List RecordStatusEnum
  | RecordStatusEnum.waiting =>
      [RecordStatusEnum.running, RecordStatusEnum.cancelled, RecordStatusEnum.deleted]
  | RecordStatusEnum.running =>
      [RecordStatusEnum.complete, RecordStatusEnum.error, RecordStatusEnum.cancelled,
        RecordStatusEnum.deleted]
  | RecordStatusEnum.error =>
      [RecordStatusEnum.waiting, RecordStatusEnum.cancelled, RecordStatusEnum.deleted]
  | RecordStatusEnum.cancelled => [RecordStatusEnum.waiting, RecordStatusEnum.deleted]
  | RecordStatusEnum.complete => [RecordStatusEnum.invalid, RecordStatusEnum.deleted]
  | RecordStatusEnum.invalid => [RecordStatusEnum.waiting, RecordStatusEnum.deleted]
  | RecordStatusEnum.deleted => []

/-- Modelled from the spec: the transition operation of section 4.2 enforces the
state machine; an illegal transition is rejected with InvalidTransition and the
record is returned unchanged. -/
def transition (r : TRecord) (new : RecordStatusEnum) : TRecord × Option TransitionError :=
  if new ∈ valid_transitions r.status then ({ r with status := new }, Option.none)
  else (r, Option.some TransitionError.invalidTransition)

/-- claimEdges is the edge list asserted by the claim, as ordered pairs. -/
def claimEdges : List (RecordStatusEnum × RecordStatusEnum) :=
  [(RecordStatusEnum.waiting, RecordStatusEnum.running),
   (RecordStatusEnum.waiting, RecordStatusEnum.cancelled),
   (RecordStatusEnum.waiting, RecordStatusEnum.deleted),
   (RecordStatusEnum.running, RecordStatusEnum.complete),
   (RecordStatusEnum.running, RecordStatusEnum.error),
   (RecordStatusEnum.running, RecordStatusEnum.cancelled),
   (RecordStatusEnum.running, RecordStatusEnum.deleted),
   (RecordStatusEnum.error, RecordStatusEnum.waiting),
   (RecordStatusEnum.error, RecordStatusEnum.cancelled),
   (RecordStatusEnum.error, RecordStatusEnum.deleted),
   (RecordStatusEnum.cancelled, RecordStatusEnum.waiting),
   (RecordStatusEnum.cancelled, RecordStatusEnum.deleted),
   (RecordStatusEnum.complete, RecordStatusEnum.invalid),
   (RecordStatusEnum.complete, RecordStatusEnum.deleted),
   (RecordStatusEnum.invalid, RecordStatusEnum.waiting),
   (RecordStatusEnum.invalid, RecordStatusEnum.deleted)]

/-- QTask is the task-queue view of a task: the dispatch attributes of the source
task model plus the lease holder. -/
structure QTask where
  id : Nat
  recordId : Nat
  tag : PyStr
  requiredPrograms : List PyStr
  priority : PriorityEnum
  createdOn : Nat
  claimedBy : Option PyStr
  deriving DecidableEq

/-- ManagerInfo is the claim-time view of a manager: its name, accepted tags and
advertised programs. -/
structure ManagerInfo where
  name : PyStr
  tags : List PyStr
  programs : List PyStr
  deriving DecidableEq

/-- wildcardTag is the code point list of the wildcard tag. -/
def wildcardTag : PyStr := [42]

/-- eligibleB checks whether a task can be handed to a manager: it is unclaimed
(waiting), its tag is accepted (or the manager accepts the wildcard), and its
required programs are all advertised by the manager. -/
def eligibleB (m : ManagerInfo) (t : QTask) : Bool :=
  decide (t.claimedBy = Option.none) &&
    decide (wildcardTag ∈ m.tags ∨ t.tag ∈ m.tags) &&
    decide (∀ p ∈ t.requiredPrograms, p ∈ m.programs)

/-- taskOrd is the dispatch order: priority descending, then creation time
ascending within one priority band. -/
def taskOrd (a b : QTask) : Prop :=
  priorityValue b.priority < priorityValue a.priority ∨
    (priorityValue a.priority = priorityValue b.priority ∧ a.createdOn ≤ b.createdOn)

instance : DecidableRel taskOrd := fun a b => by unfold taskOrd; infer_instance

instance : IsTotal QTask taskOrd := ⟨by intro a b; unfold taskOrd; omega⟩

instance : IsTrans QTask taskOrd := ⟨by intro a b c; unfold taskOrd; omega⟩

/-- markClaimed records the lease holder of a freshly claimed task. -/
def markClaimed (m : ManagerInfo) (t : QTask) : QTask := { t with claimedBy := Option.some m.name }

/-- ClaimResult packages the tasks handed out and the updated queue. -/
structure ClaimResult where
  claimed : List QTask
  tasks : List QTask
  deriving DecidableEq

/-- Modelled from the spec: the claim operation of section 4.3 (the task socket
code is not under src).  Eligible waiting tasks are ordered by priority descending
then creation time ascending, at most the allowed limit (calculate_limit embedded
from src) are handed out, and each handed-out task atomically records the manager
as lease holder. -/
def claimTasks (tasks : List QTask) (m : ManagerInfo) (max_limit : Nat)
    (given_limit : Option Nat) : ClaimResult :=
  let n := calculate_limit max_limit given_limit
  let chosen := (List.insertionSort taskOrd (tasks.filter (eligibleB m))).take n
  let chosenIds := chosen.map QTask.id
  { claimed := chosen
    tasks := tasks.map (fun t => if t.id ∈ chosenIds then markClaimed m t else t) }

/-- HeartbeatConfig embeds the heartbeat fields of FractalConfig from
qcfractal/qcfractal/config.py lines 330 to 336, with their source defaults. -/
structure HeartbeatConfig where
  heartbeat_frequency : Nat := 1800
  heartbeat_max_missed : Nat := 5
  deriving DecidableEq

/-- MState is the registry view of a compute manager: its name, the time of its
last heartbeat and whether it is active. -/
structure MState where
  name : PyStr
  lastHeartbeat : Nat
  active : Bool
  deriving DecidableEq

/-- SweepState is the shared state the heartbeat sweep acts on: the managers, the
task queue and the records owning the tasks. -/
structure SweepState where
  managers : List MState
  tasks : List QTask
  records : List TRecord
  deriving DecidableEq

/-- heartbeatDead checks whether an active manager has missed too many
heartbeats: its heartbeat age exceeds heartbeat_frequency times
heartbeat_max_missed. -/
def heartbeatDead (cfg : HeartbeatConfig) (now : Nat) (m : MState) : Bool :=
  m.active && decide (cfg.heartbeat_frequency * cfg.heartbeat_max_missed < now - m.lastHeartbeat)

/-- Modelled from the spec: the background heartbeat sweep of section 4.4 (the
manager socket code is not under src).  Managers whose heartbeat age exceeds the
threshold are marked inactive, every task they lease has its lease cleared so it
is waiting again, and the records owning those tasks are returned to waiting. -/
def sweep (cfg : HeartbeatConfig) (now : Nat) (st : SweepState) : SweepState :=
  let deadNames := (st.managers.filter (heartbeatDead cfg now)).map MState.name
  let releasedRecords :=
    (st.tasks.filter (fun t => match t.claimedBy with
      | Option.none => false
      | Option.some n => decide (n ∈ deadNames))).map QTask.recordId
  { managers := st.managers.map (fun m =>
      if heartbeatDead cfg now m then { m with active := false } else m)
    tasks := st.tasks.map (fun t => match t.claimedBy with
      | Option.none => t
      | Option.some n => if n ∈ deadNames then { t with claimedBy := Option.none } else t)
    records := st.records.map (fun r =>
      if r.id ∈ releasedRecords then { r with status := RecordStatusEnum.waiting } else r) }

/-- AutoResetConfig is embedded from qcfractal/qcfractal/config.py lines 212 to 223,
with its source defaults: automatic restart disabled, at most 2 restarts for
unknown errors and at most 5 for lost compute and for random errors. -/
structure AutoResetConfig where
  enabled : Bool := false
  unknown_error : Nat := 2
  compute_lost : Nat := 5
  random_error : Nat := 5
  deriving DecidableEq

/-- ErrorClass is the failure classification of section 4.6. -/
inductive ErrorClass where
  | unknown_error : ErrorClass
  | compute_lost : ErrorClass
  | random_error : ErrorClass
  deriving DecidableEq

/-- maxResets reads the per-class restart limit out of AutoResetConfig. -/
def maxResets (cfg : AutoResetConfig) : ErrorClass → Nat
  | ErrorClass.unknown_error => cfg.unknown_error
  | ErrorClass.compute_lost => cfg.compute_lost
  | ErrorClass.random_error => cfg.random_error

/-- RetryCounts is the per-error-class retry counter a record carries. -/
structure RetryCounts where
  unknown_error : Nat
  compute_lost : Nat
  random_error : Nat
  deriving DecidableEq

/-- getCount reads one class counter. -/
def getCount (c : RetryCounts) : ErrorClass → Nat
  | ErrorClass.unknown_error => c.unknown_error
  | ErrorClass.compute_lost => c.compute_lost
  | ErrorClass.random_error => c.random_error

/-- incCount increments one class counter, leaving the others unchanged. -/
def incCount (c : RetryCounts) : ErrorClass → RetryCounts
  | ErrorClass.unknown_error => { c with unknown_error := c.unknown_error + 1 }
  | ErrorClass.compute_lost => { c with compute_lost := c.compute_lost + 1 }
  | ErrorClass.random_error => { c with random_error := c.random_error + 1 }

/-- ARecord is the record-store view used by the retry policy: a record with its
status and its per-class retry counters. -/
structure ARecord where
  id : Nat
  status : RecordStatusEnum
  counts : RetryCounts
  deriving DecidableEq

/-- Modelled from the spec: failure handling of result ingestion, section 4.6 (the
socket code is not under src; AutoResetConfig is embedded from src).  The record
enters error; if automatic reset is enabled and the counter of the failure class
is under that class limit, the record goes back to waiting and that counter is
incremented, otherwise it stays in error. -/
def handle_error (cfg : AutoResetConfig) (r : ARecord) (cls : ErrorClass) : ARecord :=
  if cfg.enabled = true ∧ getCount r.counts cls < maxResets cfg cls then
    { r with status := RecordStatusEnum.waiting, counts := incCount r.counts cls }
  else { r with status := RecordStatusEnum.error }

/-- RecordTask embeds the dispatch fields of the RecordTask model of
qcportal/qcportal/record_models.py (the opaque compressed payload fields are
elided). -/
structure RecordTask where
  id : Nat
  record_id : Nat
  tag : PyStr
  priority : PriorityEnum
  required_programs : List PyStr
  deriving DecidableEq

/-- RecordService embeds the queue fields of the RecordService model of
qcportal/qcportal/record_models.py (the opaque iteration state is elided). -/
structure RecordService where
  id : Nat
  record_id : Nat
  tag : PyStr
  priority : PriorityEnum
  find_existing : Bool
  deriving DecidableEq

/-- ClientRecord is the client view of a record in
qcportal/qcportal/record_models.py: its identity, service flag, status and the
optionally fetched task and service entries. -/
structure ClientRecord where
  id : Nat
  record_type : PyStr
  is_service : Bool
  status : RecordStatusEnum
  task_ : Option RecordTask
  service_ : Option RecordService
  deriving DecidableEq

/-- FetchOracle abstracts the server responses for the task and service
endpoints of one record. -/
structure FetchOracle where
  task : Option RecordTask
  service : Option RecordService
  deriving DecidableEq

/-- fetch_task embeds BaseRecord fetch of the task entry, record_models.py lines
567 to 577: a service record gets no task, otherwise the server response is
stored. -/
def fetch_task (r : ClientRecord) (srv : FetchOracle) : ClientRecord :=
  if r.is_service then { r with task_ := Option.none } else { r with task_ := srv.task }

/-- fetch_service embeds BaseRecord fetch of the service entry, record_models.py
lines 579 to 587: a non-service record gets no service, otherwise the server
response is stored. -/
def fetch_service (r : ClientRecord) (srv : FetchOracle) : ClientRecord :=
  if r.is_service = false then { r with service_ := Option.none }
  else { r with service_ := srv.service }

/-- fetch_all embeds the status gate of BaseRecord.fetch_all, record_models.py
lines 468 to 490: only waiting, running and error records fetch their service and
task entries; for every other status both are cleared to null. -/
def fetch_all (r : ClientRecord) (srv : FetchOracle) : ClientRecord :=
  if r.status = RecordStatusEnum.waiting ∨ r.status = RecordStatusEnum.running ∨
      r.status = RecordStatusEnum.error then
    fetch_task (fetch_service r srv) srv
  else { r with service_ := Option.none, task_ := Option.none }

/-- RecordDict is the wire dictionary a record is built from, reduced to the
fields the base record constructor always needs. -/
structure RecordDict where
  id : Nat
  record_type : PyStr
  is_service : Bool
  status : RecordStatusEnum
  deriving DecidableEq

/-- record_from_dict embeds record_from_dict of qcportal/qcportal/record_models.py
lines 797 to 808: the record object is built from the wire dictionary (the
subclass dispatch on record_type is identity here since only base fields are
modelled). -/
def record_from_dict (d : RecordDict) : ClientRecord :=
  { id := d.id, record_type := d.record_type, is_service := d.is_service,
    status := d.status, task_ := Option.none, service_ := Option.none }

/-- records_from_dicts embeds records_from_dicts of
qcportal/qcportal/record_models.py lines 810 to 827: each null input yields null
in the same position, each dictionary yields its record. -/
def records_from_dicts : List (Option RecordDict) → List (Option ClientRecord)
  | [] => []
  | Option.none :: tl => Option.none :: records_from_dicts tl
  | Option.some rd :: tl => Option.some (record_from_dict rd) :: records_from_dicts tl

/-- Modelled from the spec: the record get operation of section 4.2 (the socket
code is not under src).  Each requested id is looked up; missing ids resolve to
null dictionaries, and records_from_dicts (embedded from src) keeps them as null
results in position, raising no error. -/
def get_records (store : List RecordDict) (ids : List Nat) : List (Option ClientRecord) :=
  records_from_dicts (ids.map (fun i => store.find? (fun rd => decide (rd.id = i))))

/-- strProg2 spells prog2 as code points. -/
def strProg2 : PyStr := [112, 114, 111, 103, 50]

/-- strProg2Mixed spells prOG2, the case variant used by
test_torsiondrive_socket_add_same_3. -/
def strProg2Mixed : PyStr := [112, 114, 79, 71, 50]

/-- strB3lyp spells b3lyp as code points. -/
def strB3lyp : PyStr := [98, 51, 108, 121, 112]

/-- strB3lypMixed spells b3LYP as code points. -/
def strB3lypMixed : PyStr := [98, 51, 76, 89, 80]

/-- strBasis631g spells 6-31g as code points. -/
def strBasis631g : PyStr := [54, 45, 51, 49, 103]

/-- wKeywords is the keyword dict with entry k2 mapped to values2 used by the
dedup test. -/
def wKeywords : PyValue :=
  PyValue.dict (PyDict.cons [107, 50] (PyValue.str [118, 97, 108, 117, 101, 115, 50]) PyDict.nil)

/-- wSpec1 is the first concrete submission of the dedup scenario. -/
def wSpec1 : QCSpec :=
  { program := strProg2, method := strB3lyp, basis := Option.some strBasis631g,
    keywords := wKeywords }

/-- wSpec2 differs from wSpec1 only in the case of the program and method names. -/
def wSpec2 : QCSpec :=
  { program := strProg2Mixed, method := strB3lypMixed, basis := Option.some strBasis631g,
    keywords := wKeywords }

/-- wStore is an empty specification store. -/
def wStore : SpecStore := { entries := [], nextId := 1 }

/-- wSpec4 is a concrete raw specification with mixed-case names, an
empty-string basis, an uppercase keyword value and unsorted keyword keys. -/
def wSpec4 : QCSpec :=
  { program := [80, 114, 111, 103, 49], method := [66, 51, 76, 89, 80],
    basis := Option.some [],
    keywords := PyValue.dict (PyDict.cons [98] (PyValue.str [86, 97, 108])
      (PyDict.cons [97] (PyValue.int 5) PyDict.nil)) }

/-- wRec2 is a concrete waiting record for the transition witness. -/
def wRec2 : TRecord :=
  { id := 4, status := RecordStatusEnum.waiting, tag := [116, 49],
    priority := PriorityEnum.normal }

/-- strPsi4 spells psi4 as code points. -/
def strPsi4 : PyStr := [112, 115, 105, 52]

/-- wMgr1 is a wildcard manager advertising psi4. -/
def wMgr1 : ManagerInfo := { name := [109, 49], tags := [wildcardTag], programs := [strPsi4] }

/-- wMgr2 is a second wildcard manager advertising psi4. -/
def wMgr2 : ManagerInfo := { name := [109, 50], tags := [wildcardTag], programs := [strPsi4] }

/-- wTaskA is a waiting normal-priority task created at time 5. -/
def wTaskA : QTask :=
  { id := 1, recordId := 10, tag := [116, 49], requiredPrograms := [strPsi4],
    priority := PriorityEnum.normal, createdOn := 5, claimedBy := Option.none }

/-- wTaskB is a waiting high-priority task created at time 9. -/
def wTaskB : QTask :=
  { id := 2, recordId := 11, tag := [116, 49], requiredPrograms := [strPsi4],
    priority := PriorityEnum.high, createdOn := 9, claimedBy := Option.none }

/-- wDeadMgr is an active manager whose last heartbeat is long past. -/
def wDeadMgr : MState := { name := [109, 49], lastHeartbeat := 0, active := true }

/-- wC6Task is a task leased by wDeadMgr. -/
def wC6Task : QTask :=
  { id := 1, recordId := 10, tag := [116, 49], requiredPrograms := [strPsi4],
    priority := PriorityEnum.normal, createdOn := 5, claimedBy := Option.some [109, 49] }

/-- wC6Rec is the running record owning wC6Task. -/
def wC6Rec : TRecord :=
  { id := 10, status := RecordStatusEnum.running, tag := [116, 49],
    priority := PriorityEnum.normal }

/-- wSweepState is the sweep scenario state. -/
def wSweepState : SweepState :=
  { managers := [wDeadMgr], tasks := [wC6Task], records := [wC6Rec] }

/-- wResetCfg enables automatic reset with the source default limits. -/
def wResetCfg : AutoResetConfig := { enabled := true }

/-- wARec is an errored record with one unknown-error restart so far. -/
def wARec : ARecord :=
  { id := 3, status := RecordStatusEnum.running,
    counts := { unknown_error := 1, compute_lost := 0, random_error := 0 } }

/-- cexTask is a concrete task entry held by an errored record. -/
def cexTask : RecordTask :=
  { id := 1, record_id := 7, tag := [116, 49], priority := PriorityEnum.normal,
    required_programs := [strPsi4] }

/-- cexRecord is a non-service record in error status. -/
def cexRecord : ClientRecord :=
  { id := 7, record_type := [115], is_service := false, status := RecordStatusEnum.error,
    task_ := Option.none, service_ := Option.none }

/-- cexOracle is the server response holding a live task for cexRecord. -/
def cexOracle : FetchOracle := { task := Option.some cexTask, service := Option.none }

/-- wC8Rec is a complete record used in the fetch_all witness. -/
def wC8Rec : ClientRecord :=
  { id := 8, record_type := [115], is_service := false,
    status := RecordStatusEnum.complete, task_ := Option.some cexTask, service_ := Option.none }

/-- wRecDict is a stored record dictionary with id 5. -/
def wRecDict : RecordDict :=
  { id := 5, record_type := [115], is_service := false, status := RecordStatusEnum.complete }

/-- lowerCp is idempotent: lowering an already lowered code point changes nothing. -/
theorem lowerCp_idem (c : Nat) : lowerCp (lowerCp c) = lowerCp c := by
  unfold lowerCp
  split_ifs <;> omega

/-- lowerStr is idempotent. -/
theorem lowerStr_idem (s : PyStr) : lowerStr (lowerStr s) = lowerStr s := by
  induction s with
  | nil => rfl
  | cons c tl ih =>
      simp only [lowerStr, List.map_cons, List.map_map] at ih ⊢
      rw [lowerCp_idem]
      simpa [lowerStr] using ih

/-- strLE is total. -/
theorem strLE_total : ∀ a b : PyStr, strLE a b = true ∨ strLE b a = true
  | [], _ => by left; simp [strLE]
  | _ :: _, [] => by right; simp [strLE]
  | a :: as, b :: bs => by
      rcases Nat.lt_trichotomy a b with h | h | h
      · left; simp [strLE, h]
      · subst h
        simpa [strLE] using strLE_total as bs
      · right; simp [strLE, h, Nat.lt_asymm h, (Nat.ne_of_lt h).symm]

/-- strLE is transitive. -/
theorem strLE_trans : ∀ a b c : PyStr, strLE a b = true → strLE b c = true → strLE a c = true
  | [], _, c, _, _ => by simp [strLE]
  | a :: as, [], _, h, _ => by simp [strLE] at h
  | _ :: _, _ :: _, [], _, h => by simp [strLE] at h
  | a :: as, b :: bs, c :: cs, h1, h2 => by
      simp only [strLE] at h1 h2 ⊢
      rcases Nat.lt_trichotomy a b with hab | hab | hab
      · rcases Nat.lt_trichotomy b c with hbc | hbc | hbc
        · simp [Nat.lt_trans hab hbc]
        · subst hbc; simp [hab]
        · exfalso; simp [Nat.lt_asymm hbc, (Nat.ne_of_lt hbc).symm] at h2
      · subst hab
        rcases Nat.lt_trichotomy a c with hbc | hbc | hbc
        · simp [hbc]
        · subst hbc
          simp only [Nat.lt_irrefl, if_false, if_pos rfl] at h1 h2 ⊢
          exact strLE_trans as bs cs h1 h2
        · exfalso; simp [Nat.lt_asymm hbc, (Nat.ne_of_lt hbc).symm] at h2
      · exfalso; simp [Nat.lt_asymm hab, (Nat.ne_of_lt hab).symm] at h1

/-- rhe of an integer is that integer. -/
theorem rhe_intCast (n : ℤ) : rhe (n : ℚ) = n := by
  unfold rhe
  rw [Int.floor_intCast]
  norm_num

/-- roundTo is idempotent. -/
theorem roundTo_roundTo (digits : Nat) (q : ℚ) :
    roundTo digits (roundTo digits q) = roundTo digits q := by
  unfold roundTo
  rw [div_mul_cancel₀ _ (pow_ne_zero _ (by norm_num : (10 : ℚ) ≠ 0)), rhe_intCast]

/-- roundTo fixes zero. -/
theorem roundTo_zero (digits : Nat) : roundTo digits 0 = 0 := by
  have h := rhe_intCast 0
  rw [Int.cast_zero] at h
  simp [roundTo, h]

/-- dictKeys distributes over dictApp. -/
theorem dictKeys_dictApp : ∀ d e : PyDict, dictKeys (dictApp d e) = dictKeys d ++ dictKeys e
  | PyDict.nil, _ => rfl
  | PyDict.cons k v tl, e => by simp [dictApp, dictKeys, dictKeys_dictApp tl e]

/-- dictApp is associative. -/
theorem dictApp_assoc : ∀ a b c : PyDict, dictApp (dictApp a b) c = dictApp a (dictApp b c)
  | PyDict.nil, _, _ => rfl
  | PyDict.cons k v tl, b, c => by simp [dictApp, dictApp_assoc tl b c]

/-- dictApp with an empty right argument is the identity. -/
theorem dictApp_nil_right : ∀ d : PyDict, dictApp d PyDict.nil = d
  | PyDict.nil => rfl
  | PyDict.cons k v tl => by rw [dictApp, dictApp_nil_right tl]

/-- dictInsert on a dict without the key appends the entry at the end. -/
theorem dictInsert_of_not_mem (k : PyStr) (v : PyValue) :
    ∀ d : PyDict, k ∉ dictKeys d →
      dictInsert k v d = dictApp d (PyDict.cons k v PyDict.nil)
  | PyDict.nil, _ => rfl
  | PyDict.cons k2 v2 tl, h => by
      have hne : k2 ≠ k := by
        intro he; exact h (by simp [dictKeys, he])
      have htl : k ∉ dictKeys tl := fun hm => h (by simp [dictKeys, hm])
      simp [dictInsert, hne, dictApp, dictInsert_of_not_mem k v tl htl]

/-- membership in the keys after dictInsert. -/
theorem mem_dictKeys_dictInsert (a k : PyStr) (v : PyValue) :
    ∀ d : PyDict, (a ∈ dictKeys (dictInsert k v d) ↔ a ∈ dictKeys d ∨ a = k)
  | PyDict.nil => by simp [dictInsert, dictKeys]
  | PyDict.cons k2 v2 tl => by
      by_cases he : k2 = k
      · subst he
        simp only [dictInsert, if_pos rfl, dictKeys, List.mem_cons]
        constructor
        · rintro (h | h)
          · exact Or.inr h
          · exact Or.inl (Or.inr h)
        · rintro ((h | h) | h)
          · exact Or.inl h
          · exact Or.inr h
          · exact Or.inl h
      · simp only [dictInsert, if_neg he, dictKeys, List.mem_cons,
          mem_dictKeys_dictInsert a k v tl]
        tauto

/-- dictInsert preserves distinctness of keys. -/
theorem nodup_dictKeys_dictInsert (k : PyStr) (v : PyValue) :
    ∀ d : PyDict, (dictKeys d).Nodup → (dictKeys (dictInsert k v d)).Nodup
  | PyDict.nil, _ => by simp [dictInsert, dictKeys]
  | PyDict.cons k2 v2 tl, h => by
      rw [dictKeys, List.nodup_cons] at h
      by_cases he : k2 = k
      · subst he
        simpa [dictInsert, dictKeys, List.nodup_cons] using h
      · rw [dictInsert, if_neg he, dictKeys, List.nodup_cons]
        refine ⟨?_, nodup_dictKeys_dictInsert k v tl h.2⟩
        rw [mem_dictKeys_dictInsert]
        rintro (hm | hm)
        · exact h.1 hm
        · exact he hm

/-- dictInsert of a normalized entry preserves NormD. -/
theorem NormD_dictInsert (digits : Nat) (lc : Bool) (k : PyStr) (v : PyValue)
    (hk : lc = true → lowerStr k = k) (hv : NormV digits lc v) :
    ∀ d : PyDict, NormD digits lc d → NormD digits lc (dictInsert k v d)
  | PyDict.nil, _ => by
      rw [dictInsert]
      exact ⟨hk, hv, trivial⟩
  | PyDict.cons k2 v2 tl, h => by
      rw [NormD] at h
      by_cases he : k2 = k
      · rw [dictInsert, if_pos he]
        exact ⟨h.1, hv, h.2.2⟩
      · rw [dictInsert, if_neg he]
        exact ⟨h.1, h.2.1, NormD_dictInsert digits lc k v hk hv tl h.2.2⟩

mutual
/-- the output of recursive_normalizer satisfies the fixed point predicate. -/
theorem normV_norm (digits : Nat) (lc : Bool) :
    ∀ v : PyValue, NormV digits lc (recursive_normalizer digits lc v)
  | PyValue.none => by rw [recursive_normalizer]; trivial
  | PyValue.int n => by rw [recursive_normalizer]; trivial
  | PyValue.str s => by
      rw [recursive_normalizer]
      cases lc with
      | false => simp only [if_neg Bool.false_ne_true, NormV]; intro h; exact absurd h (by simp)
      | true => simp only [if_pos rfl, NormV]; intro _; exact lowerStr_idem s
  | PyValue.float q => by
      rw [recursive_normalizer]
      by_cases hd : digits ≠ 0
      · rw [if_pos hd]
        by_cases hz : roundTo digits q = 0
        · rw [if_pos hz]; trivial
        · rw [if_neg hz]
          intro _
          exact ⟨roundTo_roundTo digits q, hz⟩
      · rw [if_neg hd]
        intro h
        exact absurd h hd
  | PyValue.list xs => by
      rw [recursive_normalizer]
      exact normL_norm digits lc xs
  | PyValue.tuple xs => by
      rw [recursive_normalizer]
      exact normL_norm digits lc xs
  | PyValue.dict es => by
      rw [recursive_normalizer]
      exact normGo_norm digits lc es PyDict.nil trivial List.nodup_nil
  | PyValue.ndarray qs => by
      rw [recursive_normalizer]
      by_cases hd : digits ≠ 0
      · rw [if_pos hd]
        show ∀ q ∈ qs.map (flipSmall digits), arrEntryFix digits q
        intro q hq _
        rcases List.mem_map.mp hq with ⟨q0, _, hq0⟩
        subst hq0
        unfold flipSmall
        by_cases hs : |roundTo digits q0| < ((5 : ℚ) ^ (digits + 1))⁻¹
        · rw [if_pos hs]
          exact ⟨roundTo_zero digits, fun _ => rfl⟩
        · rw [if_neg hs]
          exact ⟨roundTo_roundTo digits q0, fun hc => absurd hc hs⟩
      · rw [if_neg hd]
        intro q _ h
        exact absurd h hd
/-- the output of the list branch satisfies the fixed point predicate. -/
theorem normL_norm (digits : Nat) (lc : Bool) :
    ∀ xs : PyList, NormL digits lc (normList digits lc xs)
  | PyList.nil => by rw [normList]; trivial
  | PyList.cons x tl => by
      rw [normList]
      exact ⟨normV_norm digits lc x, normL_norm digits lc tl⟩
/-- the dict loop of recursive_normalizer preserves and establishes the fixed
point predicate together with key distinctness. -/
theorem normGo_norm (digits : Nat) (lc : Bool) :
    ∀ (es acc : PyDict), NormD digits lc acc → (dictKeys acc).Nodup →
      NormD digits lc (normDictGo digits lc acc es) ∧
        (dictKeys (normDictGo digits lc acc es)).Nodup
  | PyDict.nil, acc, hacc, hnd => by
      rw [normDictGo]
      exact ⟨hacc, hnd⟩
  | PyDict.cons k v tl, acc, hacc, hnd => by
      rw [normDictGo]
      have hk : lc = true → lowerStr (if lc then lowerStr k else k) = (if lc then lowerStr k else k) := by
        intro h
        subst h
        rw [if_pos rfl]
        exact lowerStr_idem k
      exact normGo_norm digits lc tl _
        (NormD_dictInsert digits lc _ _ hk (normV_norm digits lc v) acc hacc)
        (nodup_dictKeys_dictInsert _ _ acc hnd)
end

mutual
/-- recursive_normalizer fixes every value satisfying the fixed point predicate. -/
theorem normV_fix (digits : Nat) (lc : Bool) :
    ∀ v : PyValue, NormV digits lc v → recursive_normalizer digits lc v = v
  | PyValue.none, _ => by rw [recursive_normalizer]
  | PyValue.int n, _ => by rw [recursive_normalizer]
  | PyValue.str s, h => by
      rw [recursive_normalizer]
      cases lc with
      | false => rw [if_neg Bool.false_ne_true]
      | true => rw [if_pos rfl, h rfl]
  | PyValue.float q, h => by
      rw [recursive_normalizer]
      by_cases hd : digits ≠ 0
      · rcases h hd with ⟨hr, hz⟩
        rw [if_pos hd, hr, if_neg hz]
      · rw [if_neg hd]
  | PyValue.list xs, h => by
      rw [recursive_normalizer, normL_fix digits lc xs h]
  | PyValue.tuple xs, h => by
      rw [recursive_normalizer, normL_fix digits lc xs h]
  | PyValue.dict es, h => by
      rw [recursive_normalizer]
      have := normGo_fix digits lc es PyDict.nil h.1 h.2 (by intro a _ hm; simp [dictKeys] at hm)
      rw [this]
      rfl
  | PyValue.ndarray qs, h => by
      rw [recursive_normalizer]
      by_cases hd : digits ≠ 0
      · rw [if_pos hd]
        have hmap : ∀ l : List ℚ, (∀ q ∈ l, arrEntryFix digits q) →
            l.map (flipSmall digits) = l := by
          intro l
          induction l with
          | nil => intro _; rfl
          | cons q tl ih =>
              intro hl
              have hq := hl q (by simp) hd
              rw [List.map_cons, ih (fun x hx => hl x (by simp [hx]))]
              unfold flipSmall
              rw [hq.1]
              by_cases hs : |q| < ((5 : ℚ) ^ (digits + 1))⁻¹
              · rw [if_pos hs, hq.2 hs]
              · rw [if_neg hs]
        rw [hmap qs h]
      · rw [if_neg hd]
/-- normList fixes lists of fixed points. -/
theorem normL_fix (digits : Nat) (lc : Bool) :
    ∀ xs : PyList, NormL digits lc xs → normList digits lc xs = xs
  | PyList.nil, _ => by rw [normList]
  | PyList.cons x tl, h => by
      rw [normList, normV_fix digits lc x h.1, normL_fix digits lc tl h.2]
/-- the dict loop acts as plain append on already-normalized entry lists with
distinct keys disjoint from the accumulator. -/
theorem normGo_fix (digits : Nat) (lc : Bool) :
    ∀ (es acc : PyDict), NormD digits lc es → (dictKeys es).Nodup →
      (∀ a ∈ dictKeys es, a ∉ dictKeys acc) →
      normDictGo digits lc acc es = dictApp acc es
  | PyDict.nil, acc, _, _, _ => by
      rw [normDictGo, dictApp_nil_right]
  | PyDict.cons k v tl, acc, h, hnd, hdisj => by
      rcases h with ⟨hk, hv, htl⟩
      rw [normDictGo]
      have hkey : (if lc then lowerStr k else k) = k := by
        cases lc with
        | false => rfl
        | true => exact hk rfl
      rw [hkey, normV_fix digits lc v hv]
      rw [dictInsert_of_not_mem k v acc (hdisj k (by simp [dictKeys]))]
      rw [dictKeys, List.nodup_cons] at hnd
      have hdisj2 : ∀ a ∈ dictKeys tl, a ∉ dictKeys (dictApp acc (PyDict.cons k v PyDict.nil)) := by
        intro a ha
        rw [dictKeys_dictApp]
        intro hm
        rcases List.mem_append.mp hm with hm | hm
        · exact hdisj a (by simp [dictKeys, ha]) hm
        · simp [dictKeys] at hm
          subst hm
          exact hnd.1 ha
      rw [normGo_fix digits lc tl _ htl hnd.2 hdisj2, dictApp_assoc]
      rfl
end

/-- C10: the specification normalizer is idempotent: for every value of a
supported type (None, int, str, float, list, tuple, dict, numeric array) and
every digit count, applying recursive_normalizer twice yields the same result
as applying it once. -/
theorem recursive_normalizer_idempotent (digits : Nat) (lowercase : Bool) (v : PyValue) :
    recursive_normalizer digits lowercase (recursive_normalizer digits lowercase v) =
      recursive_normalizer digits lowercase v :=
  normV_fix digits lowercase _ (normV_norm digits lowercase v)

/-- dentInsert keeps a lower bound on the keys. -/
theorem keyLB_dentInsert (k k2 : PyStr) (v : PyValue) :
    ∀ d : PyDict, strLE k2 k = true → keyLB k2 d = true →
      keyLB k2 (dentInsert k v d) = true
  | PyDict.nil, h1, _ => by rw [dentInsert]; exact h1
  | PyDict.cons k3 v3 tl, h1, h2 => by
      rw [dentInsert]
      by_cases hs : strLE k k3 = true
      · rw [if_pos hs]; exact h1
      · rw [if_neg hs]
        exact h2

/-- dentInsert preserves sortedness of the keys. -/
theorem keysChainB_dentInsert (k : PyStr) (v : PyValue) :
    ∀ d : PyDict, keysChainB d = true → keysChainB (dentInsert k v d) = true
  | PyDict.nil, _ => by rw [dentInsert]; rfl
  | PyDict.cons k2 v2 tl, h => by
      rw [keysChainB, Bool.and_eq_true] at h
      rw [dentInsert]
      by_cases hs : strLE k k2 = true
      · rw [if_pos hs]
        rw [keysChainB, keyLB, keysChainB, Bool.and_eq_true, Bool.and_eq_true]
        exact ⟨hs, h.1, h.2⟩
      · rw [if_neg hs]
        have hge : strLE k2 k = true := by
          rcases strLE_total k k2 with ht | ht
          · exact absurd ht hs
          · exact ht
        rw [keysChainB, Bool.and_eq_true]
        exact ⟨keyLB_dentInsert k k2 v tl hge h.1, keysChainB_dentInsert k v tl h.2⟩

/-- dsortD sorts the keys. -/
theorem keysChainB_dsortD : ∀ d : PyDict, keysChainB (dsortD d) = true
  | PyDict.nil => rfl
  | PyDict.cons k v tl => by
      rw [dsortD]
      exact keysChainB_dentInsert k v (dsortD tl) (keysChainB_dsortD tl)

/-- dentInsert preserves deep sortedness of the values. -/
theorem keysSortedDeepD_dentInsert (k : PyStr) (v : PyValue) :
    ∀ d : PyDict, keysSortedDeepV v = true → keysSortedDeepD d = true →
      keysSortedDeepD (dentInsert k v d) = true
  | PyDict.nil, h1, _ => by
      rw [dentInsert, keysSortedDeepD, keysSortedDeepD, Bool.and_eq_true]
      exact ⟨h1, rfl⟩
  | PyDict.cons k2 v2 tl, h1, h2 => by
      rw [keysSortedDeepD, Bool.and_eq_true] at h2
      rw [dentInsert]
      by_cases hs : strLE k k2 = true
      · rw [if_pos hs, keysSortedDeepD, keysSortedDeepD, Bool.and_eq_true, Bool.and_eq_true]
        exact ⟨h1, h2.1, h2.2⟩
      · rw [if_neg hs, keysSortedDeepD, Bool.and_eq_true]
        exact ⟨h2.1, keysSortedDeepD_dentInsert k v tl h1 h2.2⟩

/-- dsortD preserves deep sortedness of the values. -/
theorem keysSortedDeepD_dsortD : ∀ d : PyDict, keysSortedDeepD d = true →
    keysSortedDeepD (dsortD d) = true
  | PyDict.nil, _ => rfl
  | PyDict.cons k v tl, h => by
      rw [keysSortedDeepD, Bool.and_eq_true] at h
      rw [dsortD]
      exact keysSortedDeepD_dentInsert k v (dsortD tl) h.1 (keysSortedDeepD_dsortD tl h.2)

mutual
/-- sort_keys_deep leaves every nested dict with sorted keys. -/
theorem keysSorted_sortV : ∀ v : PyValue, keysSortedDeepV (sort_keys_deep v) = true
  | PyValue.none => rfl
  | PyValue.int _ => rfl
  | PyValue.str _ => rfl
  | PyValue.float _ => rfl
  | PyValue.list xs => by
      rw [sort_keys_deep]
      exact keysSorted_sortL xs
  | PyValue.tuple xs => by
      rw [sort_keys_deep]
      exact keysSorted_sortL xs
  | PyValue.dict es => by
      rw [sort_keys_deep, keysSortedDeepV, Bool.and_eq_true]
      exact ⟨keysChainB_dsortD _, keysSortedDeepD_dsortD _ (keysSorted_sortD es)⟩
  | PyValue.ndarray _ => rfl
/-- sortKeysL leaves every nested dict with sorted keys. -/
theorem keysSorted_sortL : ∀ xs : PyList, keysSortedDeepL (sortKeysL xs) = true
  | PyList.nil => rfl
  | PyList.cons x tl => by
      rw [sortKeysL, keysSortedDeepL, Bool.and_eq_true]
      exact ⟨keysSorted_sortV x, keysSorted_sortL tl⟩
/-- sortKeysD leaves every value with deeply sorted keys. -/
theorem keysSorted_sortD : ∀ es : PyDict, keysSortedDeepD (sortKeysD es) = true
  | PyDict.nil => rfl
  | PyDict.cons k v tl => by
      rw [sortKeysD, keysSortedDeepD, Bool.and_eq_true]
      exact ⟨keysSorted_sortV v, keysSorted_sortD tl⟩
end

mutual
/-- values satisfying the fixed point predicate have all floats rounded. -/
theorem floats_of_normV (digits : Nat) (lc : Bool) :
    ∀ v : PyValue, NormV digits lc v → digits ≠ 0 → allFloatsRoundedB digits v = true
  | PyValue.none, _, _ => rfl
  | PyValue.int _, _, _ => rfl
  | PyValue.str _, _, _ => rfl
  | PyValue.float q, h, hd => by
      rw [allFloatsRoundedB, decide_eq_true_eq]
      exact (h hd).1
  | PyValue.list xs, h, hd => by
      rw [allFloatsRoundedB]
      exact floats_of_normL digits lc xs h hd
  | PyValue.tuple xs, h, hd => by
      rw [allFloatsRoundedB]
      exact floats_of_normL digits lc xs h hd
  | PyValue.dict es, h, hd => by
      rw [allFloatsRoundedB]
      exact floats_of_normD digits lc es h.1 hd
  | PyValue.ndarray qs, h, hd => by
      rw [allFloatsRoundedB, List.all_eq_true]
      intro q hq
      rw [decide_eq_true_eq]
      exact (h q hq hd).1
/-- lists satisfying the fixed point predicate have all floats rounded. -/
theorem floats_of_normL (digits : Nat) (lc : Bool) :
    ∀ xs : PyList, NormL digits lc xs → digits ≠ 0 → allFloatsRoundedL digits xs = true
  | PyList.nil, _, _ => rfl
  | PyList.cons x tl, h, hd => by
      rw [allFloatsRoundedL, Bool.and_eq_true]
      exact ⟨floats_of_normV digits lc x h.1 hd, floats_of_normL digits lc tl h.2 hd⟩
/-- entry lists satisfying the fixed point predicate have all floats rounded. -/
theorem floats_of_normD (digits : Nat) (lc : Bool) :
    ∀ es : PyDict, NormD digits lc es → digits ≠ 0 → allFloatsRoundedD digits es = true
  | PyDict.nil, _, _ => rfl
  | PyDict.cons k v tl, h, hd => by
      rw [allFloatsRoundedD, Bool.and_eq_true]
      exact ⟨floats_of_normV digits lc v h.2.1 hd, floats_of_normD digits lc tl h.2.2 hd⟩
end

/-- dentInsert preserves roundedness of all floats. -/
theorem allFloats_dentInsert (digits : Nat) (k : PyStr) (v : PyValue) :
    ∀ d : PyDict, allFloatsRoundedB digits v = true → allFloatsRoundedD digits d = true →
      allFloatsRoundedD digits (dentInsert k v d) = true
  | PyDict.nil, h1, _ => by
      rw [dentInsert, allFloatsRoundedD, allFloatsRoundedD, Bool.and_eq_true]
      exact ⟨h1, rfl⟩
  | PyDict.cons k2 v2 tl, h1, h2 => by
      rw [allFloatsRoundedD, Bool.and_eq_true] at h2
      rw [dentInsert]
      by_cases hs : strLE k k2 = true
      · rw [if_pos hs, allFloatsRoundedD, allFloatsRoundedD, Bool.and_eq_true, Bool.and_eq_true]
        exact ⟨h1, h2.1, h2.2⟩
      · rw [if_neg hs, allFloatsRoundedD, Bool.and_eq_true]
        exact ⟨h2.1, allFloats_dentInsert digits k v tl h1 h2.2⟩

/-- dsortD preserves roundedness of all floats. -/
theorem allFloats_dsortD (digits : Nat) : ∀ d : PyDict,
    allFloatsRoundedD digits d = true → allFloatsRoundedD digits (dsortD d) = true
  | PyDict.nil, _ => rfl
  | PyDict.cons k v tl, h => by
      rw [allFloatsRoundedD, Bool.and_eq_true] at h
      rw [dsortD]
      exact allFloats_dentInsert digits k v (dsortD tl) h.1 (allFloats_dsortD digits tl h.2)

mutual
/-- sort_keys_deep preserves roundedness of all floats. -/
theorem allFloats_sortV (digits : Nat) : ∀ v : PyValue,
    allFloatsRoundedB digits v = true → allFloatsRoundedB digits (sort_keys_deep v) = true
  | PyValue.none, _ => rfl
  | PyValue.int _, _ => rfl
  | PyValue.str _, _ => rfl
  | PyValue.float q, h => by rw [sort_keys_deep]; exact h
  | PyValue.list xs, h => by
      rw [sort_keys_deep, allFloatsRoundedB]
      rw [allFloatsRoundedB] at h
      exact allFloats_sortL digits xs h
  | PyValue.tuple xs, h => by
      rw [sort_keys_deep, allFloatsRoundedB]
      rw [allFloatsRoundedB] at h
      exact allFloats_sortL digits xs h
  | PyValue.dict es, h => by
      rw [sort_keys_deep, allFloatsRoundedB]
      rw [allFloatsRoundedB] at h
      exact allFloats_dsortD digits _ (allFloats_sortD digits es h)
  | PyValue.ndarray qs, h => by rw [sort_keys_deep]; exact h
/-- sortKeysL preserves roundedness of all floats. -/
theorem allFloats_sortL (digits : Nat) : ∀ xs : PyList,
    allFloatsRoundedL digits xs = true → allFloatsRoundedL digits (sortKeysL xs) = true
  | PyList.nil, _ => rfl
  | PyList.cons x tl, h => by
      rw [allFloatsRoundedL, Bool.and_eq_true] at h
      rw [sortKeysL, allFloatsRoundedL, Bool.and_eq_true]
      exact ⟨allFloats_sortV digits x h.1, allFloats_sortL digits tl h.2⟩
/-- sortKeysD preserves roundedness of all floats. -/
theorem allFloats_sortD (digits : Nat) : ∀ es : PyDict,
    allFloatsRoundedD digits es = true → allFloatsRoundedD digits (sortKeysD es) = true
  | PyDict.nil, _ => rfl
  | PyDict.cons k v tl, h => by
      rw [allFloatsRoundedD, Bool.and_eq_true] at h
      rw [sortKeysD, allFloatsRoundedD, Bool.and_eq_true]
      exact ⟨allFloats_sortV digits v h.1, allFloats_sortD digits tl h.2⟩
end

/-- dentInsert preserves the multiset of string leaves. -/
theorem strLeavesD_dentInsert (k : PyStr) (v : PyValue) :
    ∀ d : PyDict, strLeavesD (dentInsert k v d) = strLeavesV v + strLeavesD d
  | PyDict.nil => by simp [dentInsert, strLeavesD]
  | PyDict.cons k2 v2 tl => by
      rw [dentInsert]
      by_cases hs : strLE k k2 = true
      · rw [if_pos hs, strLeavesD, strLeavesD]
      · rw [if_neg hs, strLeavesD, strLeavesD_dentInsert k v tl, strLeavesD]
        rw [add_left_comm]

/-- dsortD preserves the multiset of string leaves. -/
theorem strLeavesD_dsortD : ∀ d : PyDict, strLeavesD (dsortD d) = strLeavesD d
  | PyDict.nil => rfl
  | PyDict.cons k v tl => by
      rw [dsortD, strLeavesD_dentInsert, strLeavesD, strLeavesD_dsortD tl]

mutual
/-- sort_keys_deep preserves the multiset of string leaves. -/
theorem strLeaves_sortV : ∀ v : PyValue, strLeavesV (sort_keys_deep v) = strLeavesV v
  | PyValue.none => rfl
  | PyValue.int _ => rfl
  | PyValue.str _ => rfl
  | PyValue.float _ => rfl
  | PyValue.list xs => by rw [sort_keys_deep, strLeavesV, strLeaves_sortL xs, strLeavesV]
  | PyValue.tuple xs => by rw [sort_keys_deep, strLeavesV, strLeaves_sortL xs, strLeavesV]
  | PyValue.dict es => by
      rw [sort_keys_deep, strLeavesV, strLeavesD_dsortD, strLeaves_sortD es, strLeavesV]
  | PyValue.ndarray _ => rfl
/-- sortKeysL preserves the multiset of string leaves. -/
theorem strLeaves_sortL : ∀ xs : PyList, strLeavesL (sortKeysL xs) = strLeavesL xs
  | PyList.nil => rfl
  | PyList.cons x tl => by
      rw [sortKeysL, strLeavesL, strLeaves_sortV x, strLeaves_sortL tl, strLeavesL]
/-- sortKeysD preserves the multiset of string leaves. -/
theorem strLeaves_sortD : ∀ es : PyDict, strLeavesD (sortKeysD es) = strLeavesD es
  | PyDict.nil => rfl
  | PyDict.cons k v tl => by
      rw [sortKeysD, strLeavesD, strLeaves_sortV v, strLeaves_sortD tl, strLeavesD]
end

/-- normDmap with the lowercase flag off keeps the keys unchanged. -/
theorem dictKeys_normDmap_false (digits : Nat) :
    ∀ es : PyDict, dictKeys (normDmap digits false es) = dictKeys es
  | PyDict.nil => rfl
  | PyDict.cons k v tl => by
      rw [normDmap, dictKeys, dictKeys, dictKeys_normDmap_false digits tl]
      rw [if_neg Bool.false_ne_true]

/-- with the lowercase flag off and distinct keys the dict loop of
recursive_normalizer is the entrywise map after the accumulator. -/
theorem normDictGo_false_eq (digits : Nat) :
    ∀ (es acc : PyDict), (dictKeys es).Nodup →
      (∀ a ∈ dictKeys es, a ∉ dictKeys acc) →
      normDictGo digits false acc es = dictApp acc (normDmap digits false es)
  | PyDict.nil, acc, _, _ => by rw [normDictGo, normDmap, dictApp_nil_right]
  | PyDict.cons k v tl, acc, hnd, hdisj => by
      rw [normDictGo, normDmap]
      rw [if_neg Bool.false_ne_true]
      rw [dictInsert_of_not_mem k _ acc (hdisj k (by simp [dictKeys]))]
      rw [dictKeys, List.nodup_cons] at hnd
      have hdisj2 : ∀ a ∈ dictKeys tl,
          a ∉ dictKeys (dictApp acc (PyDict.cons k (recursive_normalizer digits false v) PyDict.nil)) := by
        intro a ha
        rw [dictKeys_dictApp]
        intro hm
        rcases List.mem_append.mp hm with hm | hm
        · exact hdisj a (by simp [dictKeys, ha]) hm
        · simp [dictKeys] at hm
          subst hm
          exact hnd.1 ha
      rw [normDictGo_false_eq digits tl _ hnd.2 hdisj2, dictApp_assoc]
      rfl

mutual
/-- with the lowercase flag off, recursive_normalizer keeps the multiset of
string leaves of a well-formed value (keyword value case is preserved). -/
theorem strLeaves_norm_false (digits : Nat) :
    ∀ v : PyValue, wfV v = true →
      strLeavesV (recursive_normalizer digits false v) = strLeavesV v
  | PyValue.none, _ => rfl
  | PyValue.int _, _ => rfl
  | PyValue.str s, _ => by
      rw [recursive_normalizer, if_neg Bool.false_ne_true]
  | PyValue.float q, _ => by
      rw [recursive_normalizer]
      by_cases hd : digits ≠ 0
      · rw [if_pos hd]
        by_cases hz : roundTo digits q = 0
        · rw [if_pos hz, strLeavesV, strLeavesV]
        · rw [if_neg hz, strLeavesV, strLeavesV]
      · rw [if_neg hd]
  | PyValue.list xs, h => by
      rw [recursive_normalizer, strLeavesV, strLeavesV]
      rw [wfV] at h
      exact strLeaves_norm_falseL digits xs h
  | PyValue.tuple xs, h => by
      rw [recursive_normalizer, strLeavesV, strLeavesV]
      rw [wfV] at h
      exact strLeaves_norm_falseL digits xs h
  | PyValue.dict es, h => by
      rw [wfV, Bool.and_eq_true] at h
      have hnd : (dictKeys es).Nodup := by
        have := h.1
        rw [keysNodupB, decide_eq_true_eq] at this
        exact this
      rw [recursive_normalizer]
      rw [normDictGo_false_eq digits es PyDict.nil hnd (by intro a _ hm; simp [dictKeys] at hm)]
      rw [strLeavesV, strLeavesV]
      show strLeavesD (normDmap digits false es) = strLeavesD es
      exact strLeaves_norm_falseD digits es h.2
  | PyValue.ndarray qs, _ => by
      rw [recursive_normalizer]
      by_cases hd : digits ≠ 0
      · rw [if_pos hd, strLeavesV, strLeavesV]
      · rw [if_neg hd]
/-- with the lowercase flag off, normList keeps the multiset of string leaves. -/
theorem strLeaves_norm_falseL (digits : Nat) :
    ∀ xs : PyList, wfL xs = true →
      strLeavesL (normList digits false xs) = strLeavesL xs
  | PyList.nil, _ => rfl
  | PyList.cons x tl, h => by
      rw [wfL, Bool.and_eq_true] at h
      rw [normList, strLeavesL, strLeaves_norm_false digits x h.1,
        strLeaves_norm_falseL digits tl h.2, strLeavesL]
/-- with the lowercase flag off, normDmap keeps the multiset of string leaves. -/
theorem strLeaves_norm_falseD (digits : Nat) :
    ∀ es : PyDict, wfD es = true →
      strLeavesD (normDmap digits false es) = strLeavesD es
  | PyDict.nil, _ => rfl
  | PyDict.cons k v tl, h => by
      rw [wfD, Bool.and_eq_true] at h
      rw [normDmap, strLeavesD, strLeaves_norm_false digits v h.1,
        strLeaves_norm_falseD digits tl h.2, strLeavesD]
end

/-- C4: the canonicalizer lowercases the program and method name fields, maps an
empty-string basis and a null basis to the same canonical empty value, rounds
every numeric field to the fixed digit count, recursively sorts the keys of
nested keyword dictionaries, and preserves the case of free-text keyword values
(their multiset of string leaves is unchanged). -/
theorem canonicalizer_normal_form (digits : Nat) (s : QCSpec)
    (hd : digits ≠ 0) (hwf : wfV s.keywords = true) :
    (canonicalize digits s).program = lowerStr s.program ∧
    (canonicalize digits s).method = lowerStr s.method ∧
    canonicalize digits { s with basis := Option.some [] } =
      canonicalize digits { s with basis := Option.none } ∧
    allFloatsRoundedB digits (canonicalize digits s).keywords = true ∧
    keysSortedDeepV (canonicalize digits s).keywords = true ∧
    strLeavesV (canonicalize digits s).keywords = strLeavesV s.keywords := by
  refine ⟨rfl, rfl, ?_, ?_, ?_, ?_⟩
  · simp [canonicalize, normalize_basis]
  · exact allFloats_sortV digits _
      (floats_of_normV digits false _ (normV_norm digits false s.keywords) hd)
  · exact keysSorted_sortV _
  · show strLeavesV (sort_keys_deep (recursive_normalizer digits false s.keywords)) =
      strLeavesV s.keywords
    rw [strLeaves_sortV, strLeaves_norm_false digits _ hwf]

/-- witness for C4 at a concrete mixed-case specification and digit count 3. -/
theorem canonicalizer_normal_form_witness :
    (3 ≠ 0) ∧ wfV wSpec4.keywords = true ∧
    ((canonicalize 3 wSpec4).program = lowerStr wSpec4.program ∧
      (canonicalize 3 wSpec4).method = lowerStr wSpec4.method ∧
      canonicalize 3 { wSpec4 with basis := Option.some [] } =
        canonicalize 3 { wSpec4 with basis := Option.none } ∧
      allFloatsRoundedB 3 (canonicalize 3 wSpec4).keywords = true ∧
      keysSortedDeepV (canonicalize 3 wSpec4).keywords = true ∧
      strLeavesV (canonicalize 3 wSpec4).keywords = strLeavesV wSpec4.keywords) :=
  ⟨by decide, by decide, canonicalizer_normal_form 3 wSpec4 (by decide) (by decide)⟩

/-- submit resolves to the stored entry when the canonical form is found. -/
theorem submit_found (st : SpecStore) (digits : Nat) (s : QCSpec) (e : Nat × QCSpec)
    (hf : st.entries.find? (fun x => decide (x.2 = canonicalize digits s)) = Option.some e) :
    submit st digits s = { recordId := e.1, created := false, store := st } := by
  simp only [submit]
  rw [hf]

/-- submit inserts a new entry when the canonical form is not found. -/
theorem submit_new (st : SpecStore) (digits : Nat) (s : QCSpec)
    (hf : st.entries.find? (fun x => decide (x.2 = canonicalize digits s)) = Option.none) :
    submit st digits s =
      { recordId := st.nextId, created := true,
        store := { entries := (st.nextId, canonicalize digits s) :: st.entries,
                   nextId := st.nextId + 1 } } := by
  simp only [submit]
  rw [hf]

/-- C1: a second submission whose specification canonicalizes identically (for
example differing only in the case of case-insensitive fields) returns the same
record id as the first and reports created false. -/
theorem submit_dedup (st : SpecStore) (digits : Nat) (s1 s2 : QCSpec)
    (h : canonicalize digits s1 = canonicalize digits s2) :
    (submit (submit st digits s1).store digits s2).recordId =
      (submit st digits s1).recordId ∧
    (submit (submit st digits s1).store digits s2).created = false := by
  rcases hf : st.entries.find? (fun e => decide (e.2 = canonicalize digits s1)) with _ | e
  · have h1 := submit_new st digits s1 hf
    have hhead : ((st.nextId, canonicalize digits s1) :: st.entries).find?
        (fun x => decide (x.2 = canonicalize digits s2)) =
        Option.some (st.nextId, canonicalize digits s1) := by
      apply List.find?_cons_of_pos
      simp [h]
    rw [h1]
    have h2 := submit_found
      { entries := (st.nextId, canonicalize digits s1) :: st.entries, nextId := st.nextId + 1 }
      digits s2 (st.nextId, canonicalize digits s1) hhead
    exact ⟨by rw [h2], by rw [h2]⟩
  · have h1 := submit_found st digits s1 e hf
    have hf2 : st.entries.find? (fun x => decide (x.2 = canonicalize digits s2)) =
        Option.some e := by
      rw [← h]
      exact hf
    rw [h1]
    have h2 := submit_found st digits s2 e hf2
    exact ⟨by rw [h2], by rw [h2]⟩

/-- witness for C1: the same specification submitted twice with mixed case the
second time resolves to one record id with created false. -/
theorem submit_dedup_witness :
    canonicalize 10 wSpec1 = canonicalize 10 wSpec2 ∧
    (submit (submit wStore 10 wSpec1).store 10 wSpec2).recordId =
      (submit wStore 10 wSpec1).recordId ∧
    (submit (submit wStore 10 wSpec1).store 10 wSpec2).created = false :=
  ⟨by decide, submit_dedup wStore 10 wSpec1 wSpec2 (by decide)⟩

/-- C2: a transition succeeds exactly along the legal edges of the status state
machine; any other requested transition fails with InvalidTransition and leaves
the record unchanged. -/
theorem transition_state_machine (r : TRecord) (new : RecordStatusEnum) :
    ((transition r new).2 = Option.none ↔ (r.status, new) ∈ claimEdges) ∧
    ((r.status, new) ∈ claimEdges →
      transition r new = ({ r with status := new }, Option.none)) ∧
    ((r.status, new) ∉ claimEdges →
      transition r new = (r, Option.some TransitionError.invalidTransition)) := by
  obtain ⟨i, st, tg, pr⟩ := r
  cases st <;> cases new <;>
    simp [transition, valid_transitions, claimEdges]

/-- witness for C2: the waiting to complete edge is illegal, is rejected with
InvalidTransition, and leaves the record unchanged; the waiting to running edge
is legal. -/
theorem transition_state_machine_witness :
    ((wRec2.status, RecordStatusEnum.complete) ∉ claimEdges ∧
      transition wRec2 RecordStatusEnum.complete =
        (wRec2, Option.some TransitionError.invalidTransition)) ∧
    ((wRec2.status, RecordStatusEnum.running) ∈ claimEdges ∧
      transition wRec2 RecordStatusEnum.running =
        ({ wRec2 with status := RecordStatusEnum.running }, Option.none)) :=
  ⟨⟨by decide, (transition_state_machine wRec2 RecordStatusEnum.complete).2.2 (by decide)⟩,
    ⟨by decide, (transition_state_machine wRec2 RecordStatusEnum.running).2.1 (by decide)⟩⟩

/-- C7: a record failing with a classified error goes back to waiting with that
class counter incremented exactly when automatic reset is enabled and the
counter is under the class limit; otherwise it stays in error with counters
unchanged. -/
theorem auto_reset_policy (cfg : AutoResetConfig) (r : ARecord) (cls : ErrorClass) :
    (cfg.enabled = true → getCount r.counts cls < maxResets cfg cls →
      handle_error cfg r cls =
        { r with status := RecordStatusEnum.waiting, counts := incCount r.counts cls } ∧
      getCount (incCount r.counts cls) cls = getCount r.counts cls + 1 ∧
      (∀ c2, c2 ≠ cls → getCount (incCount r.counts cls) c2 = getCount r.counts c2)) ∧
    ((cfg.enabled = false ∨ maxResets cfg cls ≤ getCount r.counts cls) →
      handle_error cfg r cls = { r with status := RecordStatusEnum.error }) := by
  constructor
  · intro hen hlt
    refine ⟨?_, ?_, ?_⟩
    · rw [handle_error, if_pos ⟨hen, hlt⟩]
    · cases cls <;> rfl
    · intro c2 hne
      cases cls <;> cases c2 <;> first | rfl | exact absurd rfl hne
  · intro hb
    rw [handle_error, if_neg]
    rintro ⟨hen, hlt⟩
    rcases hb with hb | hb
    · rw [hen] at hb
      exact Bool.noConfusion hb
    · omega

/-- witness for C7: with reset enabled and one prior unknown-error restart (limit
2 from the source defaults) the record returns to waiting and the counter
becomes 2; a further unknown error then stays in error. -/
theorem auto_reset_policy_witness :
    (wResetCfg.enabled = true ∧
      getCount wARec.counts ErrorClass.unknown_error <
        maxResets wResetCfg ErrorClass.unknown_error ∧
      handle_error wResetCfg wARec ErrorClass.unknown_error =
        { wARec with status := RecordStatusEnum.waiting,
                     counts := incCount wARec.counts ErrorClass.unknown_error }) ∧
    (maxResets wResetCfg ErrorClass.unknown_error ≤
        getCount (incCount wARec.counts ErrorClass.unknown_error) ErrorClass.unknown_error ∧
      handle_error wResetCfg
          { wARec with counts := incCount wARec.counts ErrorClass.unknown_error }
          ErrorClass.unknown_error =
        { wARec with status := RecordStatusEnum.error,
                     counts := incCount wARec.counts ErrorClass.unknown_error }) :=
  ⟨⟨by decide, by decide,
      ((auto_reset_policy wResetCfg wARec ErrorClass.unknown_error).1 (by decide) (by decide)).1⟩,
    ⟨by decide,
      (auto_reset_policy wResetCfg
          { wARec with counts := incCount wARec.counts ErrorClass.unknown_error }
          ErrorClass.unknown_error).2 (Or.inr (by decide))⟩⟩

/-- eligibleB unpacked: an eligible task is unclaimed with accepted tag and
advertised required programs. -/
theorem eligibleB_spec (m : ManagerInfo) (t : QTask) (h : eligibleB m t = true) :
    t.claimedBy = Option.none ∧ (wildcardTag ∈ m.tags ∨ t.tag ∈ m.tags) ∧
      ∀ p ∈ t.requiredPrograms, p ∈ m.programs := by
  rw [eligibleB, Bool.and_eq_true, Bool.and_eq_true] at h
  exact ⟨of_decide_eq_true h.1.1, of_decide_eq_true h.1.2, of_decide_eq_true h.2⟩

/-- every claimed task comes from the queue and was eligible. -/
theorem mem_claimed_sub (ts : List QTask) (m : ManagerInfo) (l : Nat) (g : Option Nat)
    (t : QTask) (ht : t ∈ (claimTasks ts m l g).claimed) :
    t ∈ ts ∧ eligibleB m t = true := by
  simp only [claimTasks] at ht
  have h1 : t ∈ List.insertionSort taskOrd (ts.filter (eligibleB m)) :=
    List.take_subset _ _ ht
  have h2 : t ∈ ts.filter (eligibleB m) :=
    (List.perm_insertionSort taskOrd _).mem_iff.mp h1
  exact List.mem_filter.mp h2

/-- C3: a task handed out by one claim call is never handed out again by a
subsequent claim call on the resulting queue state, whichever managers and
filters the two calls use; hence of two serialized concurrent claim calls at
most one receives any given task. -/
theorem claim_no_double (st : List QTask) (m1 m2 : ManagerInfo) (l1 l2 : Nat)
    (g1 g2 : Option Nat) (t1 t2 : QTask)
    (h1 : t1 ∈ (claimTasks st m1 l1 g1).claimed)
    (h2 : t2 ∈ (claimTasks (claimTasks st m1 l1 g1).tasks m2 l2 g2).claimed) :
    t1.id ≠ t2.id := by
  have he2 := mem_claimed_sub _ _ _ _ _ h2
  have ht2none : t2.claimedBy = Option.none := (eligibleB_spec _ _ he2.2).1
  have ht2mem : t2 ∈ (claimTasks st m1 l1 g1).tasks := he2.1
  simp only [claimTasks] at ht2mem h1
  rcases List.mem_map.mp ht2mem with ⟨t0, _, hf⟩
  by_cases hc : t0.id ∈
      (((List.insertionSort taskOrd (st.filter (eligibleB m1))).take
        (calculate_limit l1 g1)).map QTask.id)
  · rw [if_pos hc] at hf
    rw [← hf] at ht2none
    exact absurd ht2none (by simp [markClaimed])
  · rw [if_neg hc] at hf
    intro hid
    apply hc
    rw [hf, ← hid]
    exact List.mem_map_of_mem QTask.id h1

/-- witness for C3: with two waiting tasks and limit one per call, the first
claim takes the high-priority task and the second claim takes the other, so the
two calls receive different tasks. -/
theorem claim_no_double_witness :
    wTaskB ∈ (claimTasks [wTaskA, wTaskB] wMgr1 100 (Option.some 1)).claimed ∧
    wTaskA ∈ (claimTasks (claimTasks [wTaskA, wTaskB] wMgr1 100 (Option.some 1)).tasks
      wMgr2 100 (Option.some 1)).claimed ∧
    wTaskB.id ≠ wTaskA.id :=
  ⟨by decide, by decide,
    claim_no_double [wTaskA, wTaskB] wMgr1 wMgr2 100 100 (Option.some 1) (Option.some 1)
      wTaskB wTaskA (by decide) (by decide)⟩

/-- C5: a claim call returns only waiting tasks whose tag the manager accepts
(or the manager accepts the wildcard) and whose required programs the manager
advertises, returns at most the allowed number of tasks, and returns them
ordered by priority descending then creation time ascending. -/
theorem claim_filter_order (ts : List QTask) (m : ManagerInfo) (l : Nat) (g : Option Nat) :
    (∀ t ∈ (claimTasks ts m l g).claimed,
      t ∈ ts ∧ t.claimedBy = Option.none ∧ (wildcardTag ∈ m.tags ∨ t.tag ∈ m.tags) ∧
        ∀ p ∈ t.requiredPrograms, p ∈ m.programs) ∧
    (claimTasks ts m l g).claimed.length ≤ calculate_limit l g ∧
    (∀ n, g = Option.some n → (claimTasks ts m l g).claimed.length ≤ n) ∧
    List.Sorted taskOrd (claimTasks ts m l g).claimed := by
  refine ⟨?_, ?_, ?_, ?_⟩
  · intro t ht
    have h := mem_claimed_sub ts m l g t ht
    exact ⟨h.1, eligibleB_spec m t h.2⟩
  · simp only [claimTasks]
    rw [List.length_take]
    exact min_le_left _ _
  · intro n hn
    simp only [claimTasks]
    rw [List.length_take]
    subst hn
    have : calculate_limit l (Option.some n) ≤ n := min_le_left n l
    exact le_trans (min_le_left _ _) this
  · simp only [claimTasks]
    exact List.Pairwise.sublist (List.take_sublist _ _)
      (List.sorted_insertionSort taskOrd _)

/-- witness for C5: claiming from a queue holding a normal and a high priority
task returns the high priority task first and obeys the limit. -/
theorem claim_filter_order_witness :
    wTaskB ∈ (claimTasks [wTaskA, wTaskB] wMgr1 100 (Option.some 5)).claimed ∧
    (wTaskB ∈ [wTaskA, wTaskB] ∧ wTaskB.claimedBy = Option.none ∧
      (wildcardTag ∈ wMgr1.tags ∨ wTaskB.tag ∈ wMgr1.tags) ∧
      ∀ p ∈ wTaskB.requiredPrograms, p ∈ wMgr1.programs) ∧
    (claimTasks [wTaskA, wTaskB] wMgr1 100 (Option.some 5)).claimed.length ≤ 5 :=
  ⟨by decide,
    (claim_filter_order [wTaskA, wTaskB] wMgr1 100 (Option.some 5)).1 wTaskB (by decide),
    (claim_filter_order [wTaskA, wTaskB] wMgr1 100 (Option.some 5)).2.2.1 5 rfl⟩

/-- C6: a manager whose heartbeat age exceeds heartbeat_frequency times
heartbeat_max_missed at sweep time is marked inactive; every task it leases has
its lease cleared (back to waiting), the owning records are returned to waiting,
and the released tasks are again eligible for claim by any matching manager. -/
theorem sweep_releases_dead (cfg : HeartbeatConfig) (now : Nat) (st : SweepState)
    (m : MState) (hm : m ∈ st.managers) (hact : m.active = true)
    (hdead : cfg.heartbeat_frequency * cfg.heartbeat_max_missed < now - m.lastHeartbeat) :
    ({ m with active := false } ∈ (sweep cfg now st).managers) ∧
    (∀ t ∈ st.tasks, t.claimedBy = Option.some m.name →
      ({ t with claimedBy := Option.none } ∈ (sweep cfg now st).tasks) ∧
      (∀ r ∈ st.records, r.id = t.recordId →
        { r with status := RecordStatusEnum.waiting } ∈ (sweep cfg now st).records) ∧
      (∀ m2 : ManagerInfo, (wildcardTag ∈ m2.tags ∨ t.tag ∈ m2.tags) →
        (∀ p ∈ t.requiredPrograms, p ∈ m2.programs) →
        eligibleB m2 { t with claimedBy := Option.none } = true)) := by
  have hdm : heartbeatDead cfg now m = true := by
    rw [heartbeatDead, hact, Bool.true_and, decide_eq_true_eq]
    exact hdead
  have hnamemem : m.name ∈ (st.managers.filter (heartbeatDead cfg now)).map MState.name :=
    List.mem_map_of_mem MState.name (List.mem_filter.mpr ⟨hm, hdm⟩)
  constructor
  · simp only [sweep]
    refine List.mem_map.mpr ⟨m, hm, ?_⟩
    simp [hdm]
  · intro t ht hcl
    refine ⟨?_, ?_, ?_⟩
    · simp only [sweep]
      refine List.mem_map.mpr ⟨t, ht, ?_⟩
      rw [hcl]
      simp only [if_pos hnamemem]
    · intro r hr hrid
      have htfilter : t ∈ st.tasks.filter (fun t => match t.claimedBy with
          | Option.none => false
          | Option.some n =>
              decide (n ∈ (st.managers.filter (heartbeatDead cfg now)).map MState.name)) := by
        refine List.mem_filter.mpr ⟨ht, ?_⟩
        rw [hcl]
        exact decide_eq_true hnamemem
      have hrel : r.id ∈ (st.tasks.filter (fun t => match t.claimedBy with
          | Option.none => false
          | Option.some n =>
              decide (n ∈ (st.managers.filter (heartbeatDead cfg now)).map MState.name))).map
            QTask.recordId := by
        rw [hrid]
        exact List.mem_map_of_mem QTask.recordId htfilter
      simp only [sweep]
      refine List.mem_map.mpr ⟨r, hr, ?_⟩
      simp only [if_pos hrel]
    · intro m2 htag hprog
      rw [eligibleB, Bool.and_eq_true, Bool.and_eq_true]
      exact ⟨⟨decide_eq_true rfl, decide_eq_true htag⟩, decide_eq_true hprog⟩

/-- witness for C6: with the default heartbeat configuration a manager silent
since time 0 observed at time 20000 is dead; its leased task is released and its
record returns to waiting. -/
theorem sweep_releases_dead_witness :
    (wDeadMgr ∈ wSweepState.managers ∧ wDeadMgr.active = true ∧
      HeartbeatConfig.heartbeat_frequency {} * HeartbeatConfig.heartbeat_max_missed {} <
        20000 - wDeadMgr.lastHeartbeat) ∧
    ({ wDeadMgr with active := false } ∈ (sweep {} 20000 wSweepState).managers) ∧
    ({ wC6Task with claimedBy := Option.none } ∈ (sweep {} 20000 wSweepState).tasks) ∧
    ({ wC6Rec with status := RecordStatusEnum.waiting } ∈ (sweep {} 20000 wSweepState).records) :=
  ⟨⟨by decide, by decide, by decide⟩,
    (sweep_releases_dead {} 20000 wSweepState wDeadMgr (by decide) (by decide) (by decide)).1,
    ((sweep_releases_dead {} 20000 wSweepState wDeadMgr (by decide) (by decide) (by decide)).2
      wC6Task (by decide) (by decide)).1,
    (((sweep_releases_dead {} 20000 wSweepState wDeadMgr (by decide) (by decide) (by decide)).2
      wC6Task (by decide) (by decide)).2.1 wC6Rec (by decide) (by decide))⟩

/-- counterexample to C8 as stated: fetching all data of a non-service record in
error status stores the live task entry the server holds for it, so a record can
hold a task entry while its status is neither waiting nor running. -/
theorem fetch_all_error_task_cex :
    (fetch_all cexRecord cexOracle).task_ = Option.some cexTask ∧
    (fetch_all cexRecord cexOracle).status ≠ RecordStatusEnum.waiting ∧
    (fetch_all cexRecord cexOracle).status ≠ RecordStatusEnum.running := by
  decide

/-- C8 amended: after fetch_all, at most one of the task and service entries is
non-null, a service record never holds a task, a non-service record never holds
a service, and a live task or service entry exists only while the status is
waiting, running or error. -/
theorem fetch_all_task_service (r : ClientRecord) (srv : FetchOracle) :
    ((fetch_all r srv).task_ = Option.none ∨ (fetch_all r srv).service_ = Option.none) ∧
    ((fetch_all r srv).is_service = true → (fetch_all r srv).task_ = Option.none) ∧
    ((fetch_all r srv).is_service = false → (fetch_all r srv).service_ = Option.none) ∧
    ((fetch_all r srv).status ≠ RecordStatusEnum.waiting →
      (fetch_all r srv).status ≠ RecordStatusEnum.running →
      (fetch_all r srv).status ≠ RecordStatusEnum.error →
      (fetch_all r srv).task_ = Option.none ∧ (fetch_all r srv).service_ = Option.none) := by
  obtain ⟨i, rt, sv, stt, tk, se⟩ := r
  rw [fetch_all]
  by_cases hg : stt = RecordStatusEnum.waiting ∨ stt = RecordStatusEnum.running ∨
      stt = RecordStatusEnum.error
  · rw [if_pos hg]
    cases sv with
    | true =>
        refine ⟨Or.inl rfl, fun _ => rfl, fun hsv => ?_, fun h1 h2 h3 => ?_⟩
        · simp [fetch_task, fetch_service] at hsv
        · rcases hg with hg | hg | hg <;>
            simp [fetch_task, fetch_service, hg] at h1 h2 h3
    | false =>
        refine ⟨Or.inr rfl, fun hsv => ?_, fun _ => rfl, fun h1 h2 h3 => ?_⟩
        · simp [fetch_task, fetch_service] at hsv
        · rcases hg with hg | hg | hg <;>
            simp [fetch_task, fetch_service, hg] at h1 h2 h3
  · rw [if_neg hg]
    exact ⟨Or.inl rfl, fun _ => rfl, fun _ => rfl, fun _ _ _ => ⟨rfl, rfl⟩⟩

/-- witness for C8 amended: a complete record ends with both entries null even
when the server would hand out a task. -/
theorem fetch_all_task_service_witness :
    ((fetch_all wC8Rec cexOracle).status ≠ RecordStatusEnum.waiting ∧
      (fetch_all wC8Rec cexOracle).status ≠ RecordStatusEnum.running ∧
      (fetch_all wC8Rec cexOracle).status ≠ RecordStatusEnum.error) ∧
    ((fetch_all wC8Rec cexOracle).task_ = Option.none ∧
      (fetch_all wC8Rec cexOracle).service_ = Option.none) :=
  ⟨⟨by decide, by decide, by decide⟩,
    (fetch_all_task_service wC8Rec cexOracle).2.2.2 (by decide) (by decide) (by decide)⟩

/-- records_from_dicts is the elementwise optional record constructor. -/
theorem records_from_dicts_eq_map (data : List (Option RecordDict)) :
    records_from_dicts data = data.map (Option.map record_from_dict) := by
  induction data with
  | nil => rfl
  | cons hd tl ih =>
      cases hd with
      | none => rw [records_from_dicts, ih]; rfl
      | some rd => rw [records_from_dicts, ih]; rfl

/-- C9: the get operation returns one entry per requested id in order; an id
with no stored record yields null in its position (never an error), and an id
with a stored record yields that record in its position. -/
theorem get_records_positional (store : List RecordDict) (ids : List Nat) :
    (get_records store ids).length = ids.length ∧
    (∀ k : Nat, (get_records store ids)[k]? =
      (ids[k]?).map (fun i =>
        (store.find? (fun rd => decide (rd.id = i))).map record_from_dict)) ∧
    (∀ (k i : Nat), ids[k]? = Option.some i → (∀ rd ∈ store, rd.id ≠ i) →
      (get_records store ids)[k]? = (Option.some Option.none : Option (Option ClientRecord))) := by
  have hmap : get_records store ids =
      ids.map (fun i => (store.find? (fun rd => decide (rd.id = i))).map record_from_dict) := by
    rw [get_records, records_from_dicts_eq_map, List.map_map]
    rfl
  refine ⟨?_, ?_, ?_⟩
  · rw [hmap, List.length_map]
  · intro k
    rw [hmap, List.getElem?_map]
  · intro k i hk hmiss
    have hnone : store.find? (fun rd => decide (rd.id = i)) = Option.none := by
      rw [List.find?_eq_none]
      intro rd hrd
      rw [decide_eq_true_eq]
      exact hmiss rd hrd
    rw [hmap, List.getElem?_map, hk]
    show Option.some (Option.map record_from_dict
      (store.find? (fun rd => decide (rd.id = i)))) = Option.some Option.none
    rw [hnone]
    rfl

/-- witness for C9: requesting a stored id and a missing id returns the record
and null in their positions. -/
theorem get_records_positional_witness :
    ([5, 7].get? 1 = Option.some 7 ∧ ∀ rd ∈ [wRecDict], rd.id ≠ 7) ∧
    (get_records [wRecDict] [5, 7])[1]? = (Option.some Option.none : Option (Option ClientRecord)) ∧
    (get_records [wRecDict] [5, 7]).length = 2 :=
  ⟨⟨by decide, by decide⟩,
    (get_records_positional [wRecDict] [5, 7]).2.2 1 7 (by decide) (by decide),
    (get_records_positional [wRecDict] [5, 7]).1⟩
